import Mathlib

/-!
Verification of the webchirp serial bridge core (src/web/js/serial.js,
src/web/py-worker.js) via a shallow embedding in Lean.

Bytes are modelled as `Nat` (values < 256 where the source guarantees a
`Uint8Array`), strings as Lean `String`, JS `Map`s as functions
`Nat → Option _`, and fallible JS code as `Except`.
-/

namespace WebChirp

/-! ## Hex utilities (src/web/js/serial.js lines 1-27) -/

/-- JS `Number.prototype.toString(16)` digit characters: `Nat.digitChar`
produces `'0'..'9','a'..'f'` for 0..15, matching JS lowercase output. -/
def natToHexChars (n : Nat) : List Char :=
  if _h : n < 16 then [Nat.digitChar n]
  else natToHexChars (n / 16) ++ [Nat.digitChar (n % 16)]
decreasing_by
  exact Nat.div_lt_self (Nat.lt_of_lt_of_le (by norm_num) (Nat.le_of_not_lt _h)) (by norm_num)

/-- JS `.padStart(2, "0")`: left-pad the digit list to length 2. -/
def padStart2 (s : List Char) : List Char :=
  if s.length ≥ 2 then s else List.replicate (2 - s.length) '0' ++ s

/-- One byte rendered as in `bytesToHex`:
`b.toString(16).padStart(2, "0").toUpperCase()`. -/
def hexPair (b : Nat) : List Char :=
  (padStart2 (natToHexChars b)).map Char.toUpper

/-- `Array.prototype.join(" ")` at character level: the pieces separated
by single spaces. -/
def joinSpace : List (List Char) → List Char
  | [] => []
  | [t] => t
  | t :: t2 :: ts => t ++ ' ' :: joinSpace (t2 :: ts)

/-- `bytesToHex` (serial.js lines 23-27): map each byte to its padded
uppercase hex rendering and join with single spaces. -/
def bytesToHex (bytes : List Nat) : String :=
  String.mk (joinSpace (bytes.map hexPair))

/-- Hex-digit character class of the regex `[0-9a-fA-F]` in `parseHex`. -/
def isHexDigit (c : Char) : Bool :=
  ('0' ≤ c && c ≤ '9') || ('a' ≤ c && c ≤ 'f') || ('A' ≤ c && c ≤ 'F')

theorem dropWhile_length_le {α : Type} (p : α → Bool) (l : List α) :
    (l.dropWhile p).length ≤ l.length := by
  induction l with
  | nil => simp [List.dropWhile]
  | cons a l ih =>
    by_cases h : p a
    · simpa [List.dropWhile, h] using Nat.le_succ_of_le ih
    · simp [List.dropWhile, h]

/-- Maximal runs of hex digits: the composite of `parseHex`'s
`.replace(/[^0-9a-fA-F]/g, " ").split(/\s+/).filter(Boolean)` pipeline,
which replaces every non-hex character by a separator and keeps the
nonempty runs between separators. -/
def hexTokens : List Char → List (List Char)
  | [] => []
  | c :: cs =>
    if isHexDigit c then
      (c :: cs.takeWhile isHexDigit) :: hexTokens (cs.dropWhile isHexDigit)
    else
      hexTokens cs
termination_by l => l.length
decreasing_by
  · exact Nat.lt_succ_of_le (dropWhile_length_le isHexDigit cs)
  · exact Nat.lt_succ_self cs.length

/-- Numeric value of one hex digit, as consumed by
`Number.parseInt(_, 16)`. -/
def hexDigitVal (c : Char) : Nat :=
  if '0' ≤ c && c ≤ '9' then c.toNat - 48
  else if 'a' ≤ c && c ≤ 'f' then c.toNat - 87
  else c.toNat - 55

/-- `Number.parseInt(token, 16)` on a token made only of hex digits. -/
def hexTokenVal (t : List Char) : Nat :=
  t.foldl (fun acc c => acc * 16 + hexDigitVal c) 0

/-- The per-token loop body of `parseHex` (serial.js lines 12-18): a token
value outside 0..255 throws `Invalid hex byte`.  On `Nat` the source's
`Number.isNaN(value)` and `value < 0` guards cannot fire, leaving the
`value > 255` test. -/
def parseHexTokens : List (List Char) → Except String (List Nat)
  | [] => Except.ok []
  | t :: ts =>
    let value := hexTokenVal t
    if value > 255 then Except.error ("Invalid hex byte: " ++ String.mk t)
    else
      match parseHexTokens ts with
      | Except.ok rest => Except.ok (value :: rest)
      | Except.error e => Except.error e

/-- Whitespace stripped by `String.prototype.trim` (ASCII subset; the
inputs here never contain the additional Unicode space characters). -/
def isJsSpace (c : Char) : Bool :=
  c = ' ' || c = '\t' || c = '\n' || c = '\r' || c = Char.ofNat 11 || c = Char.ofNat 12

/-- `.trim()`: drop leading and trailing whitespace. -/
def trimChars (l : List Char) : List Char :=
  ((l.dropWhile isJsSpace).reverse.dropWhile isJsSpace).reverse

/-- `parseHex` (serial.js lines 2-20): trim, early-return the empty array
on empty text, then tokenize into maximal hex-digit runs and parse each. -/
def parseHex (input : String) : Except String (List Nat) :=
  let text := trimChars input.data
  if text = [] then Except.ok []
  else parseHexTokens (hexTokens text)

/-! ### Hex digit facts -/

theorem hexDigitVal_upper_digitChar :
    ∀ d : Nat, d < 16 → hexDigitVal (Char.toUpper (Nat.digitChar d)) = d := by decide

theorem isHexDigit_upper_digitChar :
    ∀ d : Nat, d < 16 → isHexDigit (Char.toUpper (Nat.digitChar d)) = true := by decide

theorem upper_digitChar_mem :
    ∀ d : Nat, d < 16 → Char.toUpper (Nat.digitChar d) ∈ "0123456789ABCDEF".data := by decide

theorem natToHexChars_lt16 (b : Nat) (h : b < 16) : natToHexChars b = [Nat.digitChar b] := by
  rw [natToHexChars]
  simp [h]

theorem natToHexChars_mid (b : Nat) (h16 : ¬ b < 16) (h : b < 256) :
    natToHexChars b = [Nat.digitChar (b / 16), Nat.digitChar (b % 16)] := by
  rw [natToHexChars]
  simp only [h16, dite_false, if_neg]
  have hdiv : b / 16 < 16 := Nat.div_lt_of_lt_mul (by omega)
  rw [natToHexChars_lt16 _ hdiv]
  simp

theorem hexPair_eq (b : Nat) (h : b < 256) :
    hexPair b = [Char.toUpper (Nat.digitChar (b / 16)), Char.toUpper (Nat.digitChar (b % 16))] := by
  by_cases h16 : b < 16
  · have hd : b / 16 = 0 := Nat.div_eq_of_lt h16
    have hm : b % 16 = b := Nat.mod_eq_of_lt h16
    simp [hexPair, padStart2, natToHexChars_lt16 b h16, hd, hm, Nat.digitChar]
  · simp [hexPair, padStart2, natToHexChars_mid b h16 h]

theorem hexTokenVal_hexPair (b : Nat) (h : b < 256) : hexTokenVal (hexPair b) = b := by
  rw [hexPair_eq b h]
  have hdiv : b / 16 < 16 := Nat.div_lt_of_lt_mul (by omega)
  have hmod : b % 16 < 16 := Nat.mod_lt _ (by omega)
  simp [hexTokenVal, List.foldl,
    hexDigitVal_upper_digitChar _ hdiv, hexDigitVal_upper_digitChar _ hmod]
  omega

theorem hexPair_all_hex (b : Nat) (h : b < 256) : ∀ c ∈ hexPair b, isHexDigit c = true := by
  rw [hexPair_eq b h]
  have hdiv : b / 16 < 16 := Nat.div_lt_of_lt_mul (by omega)
  have hmod : b % 16 < 16 := Nat.mod_lt _ (by omega)
  intro c hc
  simp only [List.mem_cons, List.not_mem_nil, or_false] at hc
  rcases hc with rfl | rfl
  · exact isHexDigit_upper_digitChar _ hdiv
  · exact isHexDigit_upper_digitChar _ hmod

/-! ### Tokenization lemmas -/

theorem takeWhile_append_all {α : Type} (p : α → Bool) (l1 l2 : List α)
    (h : ∀ x ∈ l1, p x = true) :
    (l1 ++ l2).takeWhile p = l1 ++ l2.takeWhile p := by
  induction l1 with
  | nil => simp
  | cons a l ih =>
    have ha : p a = true := h a (by simp)
    simp only [List.cons_append, List.takeWhile_cons, ha, if_true]
    rw [ih (fun x hx => h x (by simp [hx]))]

theorem dropWhile_append_all {α : Type} (p : α → Bool) (l1 l2 : List α)
    (h : ∀ x ∈ l1, p x = true) :
    (l1 ++ l2).dropWhile p = l2.dropWhile p := by
  induction l1 with
  | nil => simp
  | cons a l ih =>
    have ha : p a = true := h a (by simp)
    simp only [List.cons_append, List.dropWhile_cons, ha, if_true]
    exact ih (fun x hx => h x (by simp [hx]))

theorem takeWhile_of_head_false {α : Type} (p : α → Bool) (l : List α)
    (h : l = [] ∨ ∃ c cs, l = c :: cs ∧ p c = false) :
    l.takeWhile p = [] := by
  rcases h with rfl | ⟨c, cs, rfl, hc⟩
  · simp
  · simp [List.takeWhile_cons, hc]

theorem dropWhile_of_head_false {α : Type} (p : α → Bool) (l : List α)
    (h : l = [] ∨ ∃ c cs, l = c :: cs ∧ p c = false) :
    l.dropWhile p = l := by
  rcases h with rfl | ⟨c, cs, rfl, hc⟩
  · simp
  · simp [List.dropWhile_cons, hc]

/-- A maximal run of hex digits followed by a non-hex boundary is emitted
as one token. -/
theorem hexTokens_run (t rest : List Char) (ht : t ≠ [])
    (hall : ∀ c ∈ t, isHexDigit c = true)
    (hrest : rest = [] ∨ ∃ c cs, rest = c :: cs ∧ isHexDigit c = false) :
    hexTokens (t ++ rest) = t :: hexTokens rest := by
  obtain ⟨c, t', rfl⟩ := List.exists_cons_of_ne_nil ht
  have hc : isHexDigit c = true := hall c (by simp)
  have ht' : ∀ x ∈ t', isHexDigit x = true := fun x hx => hall x (by simp [hx])
  rw [List.cons_append, hexTokens]
  simp only [hc, if_true]
  rw [takeWhile_append_all _ _ _ ht', dropWhile_append_all _ _ _ ht',
    takeWhile_of_head_false _ _ hrest, dropWhile_of_head_false _ _ hrest]
  simp

theorem hexTokens_all_nonhex (w : List Char) (h : ∀ c ∈ w, isHexDigit c = false) :
    hexTokens w = [] := by
  induction w with
  | nil => rw [hexTokens]
  | cons c cs ih =>
    rw [hexTokens]
    simp only [h c (by simp), if_false]
    exact ih (fun x hx => h x (by simp [hx]))

theorem hexTokens_leading_nonhex (w l : List Char) (h : ∀ c ∈ w, isHexDigit c = false) :
    hexTokens (w ++ l) = hexTokens l := by
  induction w with
  | nil => simp
  | cons c cs ih =>
    rw [List.cons_append, hexTokens]
    simp only [h c (by simp), if_false]
    exact ih (fun x hx => h x (by simp [hx]))

theorem takeWhile_append_nofalse {α : Type} (p : α → Bool) (l w : List α)
    (hw : ∀ x ∈ w, p x = false) :
    (l ++ w).takeWhile p = l.takeWhile p := by
  induction l with
  | nil =>
    exact takeWhile_of_head_false p w (by
      cases w with
      | nil => exact Or.inl rfl
      | cons c cs => exact Or.inr ⟨c, cs, rfl, hw c (by simp)⟩)
  | cons a l ih =>
    by_cases ha : p a = true
    · simp only [List.cons_append, List.takeWhile_cons, ha, if_true]
      rw [ih]
    · simp only [List.cons_append, List.takeWhile_cons,
        Bool.eq_false_iff.mpr ha]
      simp

theorem dropWhile_append_nofalse {α : Type} (p : α → Bool) (l w : List α)
    (hw : ∀ x ∈ w, p x = false) :
    (l ++ w).dropWhile p = l.dropWhile p ++ w := by
  induction l with
  | nil =>
    simp only [List.nil_append, List.dropWhile_nil]
    exact dropWhile_of_head_false p w (by
      cases w with
      | nil => exact Or.inl rfl
      | cons c cs => exact Or.inr ⟨c, cs, rfl, hw c (by simp)⟩)
  | cons a l ih =>
    by_cases ha : p a = true
    · simp only [List.cons_append, List.dropWhile_cons, ha, if_true]
      exact ih
    · simp only [List.cons_append, List.dropWhile_cons,
        Bool.eq_false_iff.mpr ha]
      simp

theorem hexTokens_append_nonhex (t w : List Char) (hw : ∀ c ∈ w, isHexDigit c = false) :
    hexTokens (t ++ w) = hexTokens t := by
  induction t using hexTokens.induct with
  | case1 =>
    rw [List.nil_append, hexTokens_all_nonhex w hw, hexTokens]
  | case2 c cs hc ih =>
    rw [List.cons_append, hexTokens]
    conv_rhs => rw [hexTokens]
    simp only [hc, if_true]
    rw [takeWhile_append_nofalse _ _ _ hw, dropWhile_append_nofalse _ _ _ hw, ih]
  | case3 c cs hc ih =>
    rw [List.cons_append, hexTokens]
    conv_rhs => rw [hexTokens]
    simp only [hc, if_false]
    exact ih

/-! ### Trim lemmas -/

theorem mem_takeWhile_sat {α : Type} (p : α → Bool) (l : List α) :
    ∀ x ∈ l.takeWhile p, p x = true := by
  induction l with
  | nil => simp
  | cons a l ih =>
    by_cases ha : p a = true
    · simp only [List.takeWhile_cons, ha, if_true, List.mem_cons]
      rintro x (rfl | hx)
      · exact ha
      · exact ih x hx
    · simp [List.takeWhile_cons, Bool.eq_false_iff.mpr ha]

theorem trimChars_decomp (l : List Char) :
    ∃ w1 w2, l = w1 ++ trimChars l ++ w2
      ∧ (∀ c ∈ w1, isJsSpace c = true) ∧ (∀ c ∈ w2, isJsSpace c = true) := by
  refine ⟨l.takeWhile isJsSpace,
    ((l.dropWhile isJsSpace).reverse.takeWhile isJsSpace).reverse, ?_, ?_, ?_⟩
  · conv_lhs => rw [← List.takeWhile_append_dropWhile (p := isJsSpace) (l := l)]
    rw [List.append_assoc]
    congr 1
    conv_lhs => rw [← List.reverse_reverse (l.dropWhile isJsSpace),
      ← List.takeWhile_append_dropWhile (p := isJsSpace)
        (l := (l.dropWhile isJsSpace).reverse)]
    rw [List.reverse_append]
    rfl
  · exact mem_takeWhile_sat _ _
  · intro c hc
    rw [List.mem_reverse] at hc
    exact mem_takeWhile_sat _ _ c hc

theorem isJsSpace_not_hex (c : Char) (h : isJsSpace c = true) : isHexDigit c = false := by
  simp only [isJsSpace, Bool.or_eq_true, decide_eq_true_eq] at h
  rcases h with ((((rfl | rfl) | rfl) | rfl) | rfl) | rfl <;> decide

theorem hexTokens_trimChars (l : List Char) : hexTokens (trimChars l) = hexTokens l := by
  obtain ⟨w1, w2, hl, hw1, hw2⟩ := trimChars_decomp l
  conv_rhs => rw [hl]
  rw [List.append_assoc,
    hexTokens_leading_nonhex w1 _ (fun c hc => isJsSpace_not_hex c (hw1 c hc)),
    hexTokens_append_nonhex _ w2 (fun c hc => isJsSpace_not_hex c (hw2 c hc))]

/-! ### Round trip -/

theorem hexPair_ne_nil (b : Nat) (h : b < 256) : hexPair b ≠ [] := by
  rw [hexPair_eq b h]
  simp

theorem hexTokens_joinSpace (bs : List Nat) (h : ∀ b ∈ bs, b < 256) :
    hexTokens (joinSpace (bs.map hexPair)) = bs.map hexPair := by
  induction bs with
  | nil =>
    rw [List.map_nil, joinSpace, hexTokens]
  | cons b bs ih =>
    have hb : b < 256 := h b (by simp)
    cases bs with
    | nil =>
      show hexTokens (joinSpace [hexPair b]) = [hexPair b]
      rw [joinSpace]
      conv_lhs => rw [← List.append_nil (hexPair b)]
      rw [hexTokens_run _ _ (hexPair_ne_nil b hb) (hexPair_all_hex b hb) (Or.inl rfl)]
      rw [hexTokens]
    | cons b2 bs2 =>
      rw [List.map_cons, List.map_cons, joinSpace, ← List.map_cons hexPair b2 bs2]
      rw [hexTokens_run _ _ (hexPair_ne_nil b hb) (hexPair_all_hex b hb)
        (Or.inr ⟨' ', _, rfl, by decide⟩)]
      rw [hexTokens]
      simp only [show isHexDigit ' ' = false by decide, if_false, Bool.false_eq_true]
      rw [ih (fun x hx => h x (by simp [hx]))]

theorem parseHexTokens_map_hexPair (bs : List Nat) (h : ∀ b ∈ bs, b < 256) :
    parseHexTokens (bs.map hexPair) = Except.ok bs := by
  induction bs with
  | nil => rfl
  | cons b bs ih =>
    have hb : b < 256 := h b (by simp)
    rw [List.map_cons, parseHexTokens]
    simp only [hexTokenVal_hexPair b hb, show ¬ b > 255 by omega, if_false]
    rw [ih (fun x hx => h x (by simp [hx]))]

theorem parseHexTokens_error_iff (ts : List (List Char)) :
    (∃ e, parseHexTokens ts = Except.error e) ↔ ∃ t ∈ ts, 255 < hexTokenVal t := by
  induction ts with
  | nil => simp [parseHexTokens]
  | cons t ts ih =>
    by_cases hv : 255 < hexTokenVal t
    · constructor
      · intro _
        exact ⟨t, by simp, hv⟩
      · intro _
        exact ⟨"Invalid hex byte: " ++ String.mk t, by simp [parseHexTokens, hv]⟩
    · rw [parseHexTokens]
      simp only [show ¬ hexTokenVal t > 255 from hv, if_false]
      cases hts : parseHexTokens ts with
      | ok rest =>
        simp only [hts]
        constructor
        · rintro ⟨e, he⟩
          simp at he
        · rintro ⟨u, hu, huv⟩
          rcases List.mem_cons.mp hu with rfl | hu'
          · exact absurd huv hv
          · obtain ⟨e, he⟩ := ih.mpr ⟨u, hu', huv⟩
            rw [hts] at he
            simp at he
      | error e =>
        simp only [hts]
        constructor
        · intro _
          obtain ⟨u, hu, huv⟩ := ih.mp ⟨e, hts⟩
          exact ⟨u, by simp [hu], huv⟩
        · intro _
          exact ⟨e, rfl⟩

theorem parseHex_error_iff (s : String) :
    (∃ e, parseHex s = Except.error e) ↔
      ∃ t ∈ hexTokens (trimChars s.data), 255 < hexTokenVal t := by
  unfold parseHex
  by_cases h : trimChars s.data = []
  · rw [h]
    simp only [if_true, reduceIte]
    constructor
    · rintro ⟨e, he⟩
      simp at he
    · rintro ⟨t, ht, _⟩
      rw [hexTokens] at ht
      simp at ht
  · simp only [h, if_false, reduceIte]
    exact parseHexTokens_error_iff _

theorem parseHex_bytesToHex (bs : List Nat) (h : ∀ b ∈ bs, b < 256) :
    parseHex (bytesToHex bs) = Except.ok bs := by
  unfold parseHex bytesToHex
  show (if trimChars (joinSpace (bs.map hexPair)) = [] then _ else _) = _
  cases bs with
  | nil =>
    rw [List.map_nil, joinSpace]
    rfl
  | cons b bs' =>
    have htok : hexTokens (trimChars (joinSpace ((b :: bs').map hexPair)))
        = (b :: bs').map hexPair := by
      rw [hexTokens_trimChars, hexTokens_joinSpace _ h]
    have hne : trimChars (joinSpace ((b :: bs').map hexPair)) ≠ [] := by
      intro h0
      rw [h0, hexTokens] at htok
      simp at htok
    rw [if_neg hne, htok, parseHexTokens_map_hexPair _ h]

/-- Claim C8: for every byte sequence `bs`, `parseHex (bytesToHex bs)`
returns `bs`; `bytesToHex` produces uppercase, space-delimited, two-digit
hex; and `parseHex` throws exactly when some maximal hex-digit token of
its input does not denote a value in 0..255 (equivalently, exceeds 255,
the values being non-negative). -/
theorem hex_roundtrip (bs : List Nat) (h : ∀ b ∈ bs, b < 256) :
    parseHex (bytesToHex bs) = Except.ok bs
    ∧ (bytesToHex bs).data = joinSpace (bs.map hexPair)
    ∧ (∀ b ∈ bs, (hexPair b).length = 2 ∧ ∀ c ∈ hexPair b, c ∈ "0123456789ABCDEF".data)
    ∧ (∀ s : String, (∃ e, parseHex s = Except.error e) ↔
        ∃ t ∈ hexTokens (trimChars s.data), 255 < hexTokenVal t) := by
  refine ⟨parseHex_bytesToHex bs h, rfl, ?_, parseHex_error_iff⟩
  intro b hb
  have h256 : b < 256 := h b hb
  have hdiv : b / 16 < 16 := Nat.div_lt_of_lt_mul (by omega)
  have hmod : b % 16 < 16 := Nat.mod_lt _ (by omega)
  refine ⟨by rw [hexPair_eq b h256]; rfl, ?_⟩
  intro c hc
  rw [hexPair_eq b h256] at hc
  simp only [List.mem_cons, List.not_mem_nil, or_false] at hc
  rcases hc with rfl | rfl
  · exact upper_digitChar_mem _ hdiv
  · exact upper_digitChar_mem _ hmod

/-- Witness for `hex_roundtrip` at the concrete byte list `[0, 26, 255]`. -/
theorem hex_roundtrip_witness :
    (∀ b ∈ [0, 26, 255], b < 256)
    ∧ parseHex (bytesToHex [0, 26, 255]) = Except.ok [0, 26, 255] :=
  ⟨by decide, (hex_roundtrip [0, 26, 255] (by decide)).1⟩

/-! ## BrowserSerialBridge (src/web/js/serial.js lines 38-186)

`port`, `reader`, `writer` model the nullable object fields (`true` =
non-null); `dtr`/`rts` are the port's control lines, touched only by
`prepareClone`.  Real time is abstracted: a `readHex` call takes a
`fuel` (how many 10 ms sleeps fit before `performance.now() - start`
reaches `timeoutMs`) and an `arrivals` trace (the chunks the background
`_startReadLoop` concatenates onto `readBuffer` during each sleep). -/

structure Bridge where
  port : Bool
  reader : Bool
  writer : Bool
  readBuffer : List Nat
  dtr : Bool
  rts : Bool
deriving Repr, DecidableEq

/-- Result shape of `open`/`close`. -/
structure ConnResult where
  connected : Bool
  message : String
deriving Repr, DecidableEq

/-- `open` (serial.js lines 50-70).  `supported` models
`"serial" in navigator`; `acquire` models the awaited
`navigator.serial.requestPort({})` / `port.open(...)` pair, which either
yields a port or rejects with an error. -/
def openBridge (supported : Bool) (acquire : Except String Unit) (s : Bridge)
    (baudRate : Nat) : Except String (ConnResult × Bridge) :=
  if !supported then Except.error "Web Serial is not supported in this browser."
  else if s.port then Except.ok ({ connected := true, message := "Already connected." }, s)
  else
    match acquire with
    | Except.error e => Except.error e
    | Except.ok () =>
      Except.ok ({ connected := true,
                   message := "Connected at " ++ toString baudRate ++ " baud" },
        { s with port := true, reader := true, writer := true })

/-- `close` (serial.js lines 72-103): never throws (all cleanup errors are
swallowed), nulls the fields and empties the buffer. -/
def closeBridge (s : Bridge) : ConnResult × Bridge :=
  if !s.port then ({ connected := false, message := "No port connected." }, s)
  else ({ connected := false, message := "Disconnected." },
    { s with port := false, reader := false, writer := false, readBuffer := [] })

/-- The wait loop of `readHex` (serial.js lines 127-134): while fewer than
`count` bytes are buffered and the deadline has not passed, sleep 10 ms
(during which `_startReadLoop` may append one chunk). -/
def readHexLoop (count : Nat) (fuel : Nat) (arrivals : List (List Nat))
    (buf : List Nat) : List Nat :=
  if count ≤ buf.length then buf
  else
    match fuel, arrivals with
    | 0, _ => buf
    | Nat.succ f, [] => readHexLoop count f [] buf
    | Nat.succ f, a :: rest => readHexLoop count f rest (buf ++ a)
termination_by fuel

/-- Result shape of `readHex`. -/
structure ReadHexResult where
  read : Nat
  hex : String
  timedOut : Bool
deriving Repr, DecidableEq

/-- `readHex` (serial.js lines 123-144): fail when no port; otherwise wait,
then drain at most `count` bytes off the front of the buffer and report
`timedOut` exactly when short. -/
def readHex (s : Bridge) (count : Nat) (fuel : Nat) (arrivals : List (List Nat)) :
    Except String (ReadHexResult × Bridge) :=
  if !s.port then Except.error "Port is not connected."
  else
    let bfin := readHexLoop count fuel arrivals s.readBuffer
    let available := min count bfin.length
    let out := bfin.take available
    Except.ok ({ read := out.length, hex := bytesToHex out,
                 timedOut := decide (out.length < count) },
      { s with readBuffer := bfin.drop available })

/-- `result.hex.split(/\s+/).filter(Boolean)`: maximal runs of
non-whitespace characters. -/
def splitWs : List Char → List (List Char)
  | [] => []
  | c :: cs =>
    if isJsSpace c then splitWs cs
    else (c :: cs.takeWhile (fun x => !isJsSpace x))
      :: splitWs (cs.dropWhile (fun x => !isJsSpace x))
termination_by l => l.length
decreasing_by
  · exact Nat.lt_succ_self cs.length
  · exact Nat.lt_succ_of_le (dropWhile_length_le _ cs)

/-- `readBytes` (serial.js lines 146-152): delegate to `readHex`, then
decode its hex string (split on whitespace, `parseInt(_, 16)` each part),
with `[]` for an empty hex string. -/
def readBytes (s : Bridge) (count : Nat) (fuel : Nat) (arrivals : List (List Nat)) :
    Except String (List Nat × Bridge) :=
  match readHex s count fuel arrivals with
  | Except.error e => Except.error e
  | Except.ok (r, s') =>
    Except.ok ((if r.hex ≠ "" then (splitWs r.hex.data).map hexTokenVal else []), s')

/-- Result shape of `prepareClone`. -/
structure PrepareResult where
  prepared : Bool
deriving Repr, DecidableEq

/-- `prepareClone` (serial.js lines 154-169): fail when no port; otherwise
clear the read buffer, try to set the control lines (`signalsOk` models
whether the adapter supports `setSignals`; a failure is swallowed), wait
`settleMs` (time is not part of the state), and report `prepared`. -/
def prepareClone (s : Bridge) (signalsOk : Bool) (wantsDtr wantsRts : Bool)
    (settleMs : Nat) : Except String (PrepareResult × Bridge) :=
  if !s.port then Except.error "Port is not connected."
  else
    let s1 := { s with readBuffer := [] }
    let s2 := if signalsOk then { s1 with dtr := wantsDtr, rts := wantsRts } else s1
    let _settle := settleMs
    Except.ok ({ prepared := true }, s2)

/-! ### Read loop lemmas -/

theorem take_min_length {α : Type} (l : List α) (n : Nat) :
    l.take (min n l.length) = l.take n := by
  rcases Nat.le_total n l.length with h | h
  · rw [min_eq_left h]
  · rw [min_eq_right h, List.take_length, List.take_of_length_le h]

/-- The wait loop only ever appends arrived chunks, in order, to the
existing buffer: its result is the initial buffer followed by the
concatenation of some prefix of the arrival trace. -/
theorem readHexLoop_decomp (count : Nat) (fuel : Nat) (arrivals : List (List Nat))
    (buf : List Nat) :
    ∃ k, readHexLoop count fuel arrivals buf = buf ++ ((arrivals.take k).flatten) := by
  induction fuel generalizing arrivals buf with
  | zero =>
    refine ⟨0, ?_⟩
    rw [readHexLoop.eq_def]
    by_cases h : count ≤ buf.length <;> simp [h]
  | succ f ih =>
    by_cases h : count ≤ buf.length
    · refine ⟨0, ?_⟩
      rw [readHexLoop.eq_def]
      simp [h]
    · cases arrivals with
      | nil =>
        obtain ⟨k, hk⟩ := ih [] buf
        refine ⟨k, ?_⟩
        rw [readHexLoop.eq_def, if_neg h]
        simpa using hk
      | cons a rest =>
        obtain ⟨k, hk⟩ := ih rest (buf ++ a)
        refine ⟨k + 1, ?_⟩
        rw [readHexLoop.eq_def, if_neg h]
        show readHexLoop count f rest (buf ++ a) = _
        rw [hk]
        simp

/-- With an open port, `readHex` reduces to draining at most `count` bytes
off the front of the post-wait buffer. -/
theorem readHex_open (s : Bridge) (count fuel : Nat) (arrivals : List (List Nat))
    (hport : s.port = true) :
    readHex s count fuel arrivals =
      Except.ok
        (⟨((readHexLoop count fuel arrivals s.readBuffer).take count).length,
          bytesToHex ((readHexLoop count fuel arrivals s.readBuffer).take count),
          decide (((readHexLoop count fuel arrivals s.readBuffer).take count).length < count)⟩,
         Bridge.mk s.port s.reader s.writer ((readHexLoop count fuel arrivals s.readBuffer).drop (min count (readHexLoop count fuel arrivals s.readBuffer).length)) s.dtr s.rts) := by
  rw [readHex, hport]
  simp only [Bool.not_true, Bool.false_eq_true, if_false, take_min_length]

/-- Claim C1: with an open session, a buffered read never raises an error
on a deadline miss: `readHex` returns the bytes accumulated so far (at
most `count`, taken from the front of the read buffer) with a `timedOut`
flag that is true exactly when fewer than `count` bytes are returned, and
`readBytes` likewise returns without error. -/
theorem readHex_deadline_miss (s : Bridge) (count fuel : Nat)
    (arrivals : List (List Nat)) (hport : s.port = true) :
    ∃ r s', readHex s count fuel arrivals = Except.ok (r, s')
      ∧ r.read ≤ count
      ∧ (r.timedOut = true ↔ r.read < count)
      ∧ (∃ k, r.hex = bytesToHex ((s.readBuffer ++ ((arrivals.take k).flatten)).take count)
          ∧ r.read = min count (s.readBuffer ++ ((arrivals.take k).flatten)).length)
      ∧ (∃ bytes s'', readBytes s count fuel arrivals = Except.ok (bytes, s'')) := by
  obtain ⟨k, hk⟩ := readHexLoop_decomp count fuel arrivals s.readBuffer
  refine ⟨_, _, readHex_open s count fuel arrivals hport, ?_, ?_, ⟨k, ?_, ?_⟩, ?_⟩
  · simp only [List.length_take]
    exact min_le_left _ _
  · simp
  · rw [hk]
  · rw [hk]
    simp
  · have hrb : readBytes s count fuel arrivals = Except.ok ((if bytesToHex ((readHexLoop count fuel arrivals s.readBuffer).take count) ≠ "" then (splitWs (bytesToHex ((readHexLoop count fuel arrivals s.readBuffer).take count)).data).map hexTokenVal else []), Bridge.mk s.port s.reader s.writer ((readHexLoop count fuel arrivals s.readBuffer).drop (min count (readHexLoop count fuel arrivals s.readBuffer).length)) s.dtr s.rts) := by
      rw [readBytes, readHex_open s count fuel arrivals hport]
    exact ⟨_, _, hrb⟩

/-- Claim C10: each `readHex` call returns precisely the first
`min (count, buffer length)` bytes of the read buffer (the buffer as
accumulated when the wait ends) and leaves the buffer equal to its prior
contents with exactly that prefix removed — FIFO, no reordering, no loss —
while the `port`, `reader` and `writer` fields are unchanged. -/
theorem readHex_frame (s : Bridge) (count fuel : Nat)
    (arrivals : List (List Nat)) (hport : s.port = true) :
    ∃ r s' bfin, readHex s count fuel arrivals = Except.ok (r, s')
      ∧ (∃ k, bfin = s.readBuffer ++ ((arrivals.take k).flatten))
      ∧ r.hex = bytesToHex (bfin.take (min count bfin.length))
      ∧ s'.readBuffer = bfin.drop (min count bfin.length)
      ∧ bfin.take (min count bfin.length) ++ s'.readBuffer = bfin
      ∧ s'.port = s.port ∧ s'.reader = s.reader ∧ s'.writer = s.writer := by
  obtain ⟨k, hk⟩ := readHexLoop_decomp count fuel arrivals s.readBuffer
  refine ⟨_, _, readHexLoop count fuel arrivals s.readBuffer,
    readHex_open s count fuel arrivals hport, ⟨k, hk⟩, ?_, rfl, ?_, rfl, rfl, rfl⟩
  · rw [take_min_length]
  · exact List.take_append_drop _ _

/-- A bridge with an open session and three buffered bytes, used to
instantiate the read theorems. -/
def bridgeOpen : Bridge := Bridge.mk true true true [1, 2, 3] false false

/-- Witness for `readHex_deadline_miss` at the concrete state
`bridgeOpen`, count 5, an expired deadline and no arrivals. -/
theorem readHex_deadline_miss_witness :
    bridgeOpen.port = true ∧
    (∃ r s', readHex bridgeOpen 5 0 [] = Except.ok (r, s')
      ∧ r.read ≤ 5
      ∧ (r.timedOut = true ↔ r.read < 5)
      ∧ (∃ k, r.hex = bytesToHex ((bridgeOpen.readBuffer ++ (((List.take k ([] : List (List Nat)))).flatten)).take 5)
          ∧ r.read = min 5 (bridgeOpen.readBuffer ++ (((List.take k ([] : List (List Nat)))).flatten)).length)
      ∧ (∃ bytes s'', readBytes bridgeOpen 5 0 [] = Except.ok (bytes, s''))) :=
  ⟨rfl, readHex_deadline_miss bridgeOpen 5 0 [] rfl⟩

/-- Witness for `readHex_frame` at the concrete state `bridgeOpen`,
count 2, an expired deadline and no arrivals. -/
theorem readHex_frame_witness :
    bridgeOpen.port = true ∧
    (∃ r s' bfin, readHex bridgeOpen 2 0 [] = Except.ok (r, s')
      ∧ (∃ k, bfin = bridgeOpen.readBuffer ++ (((List.take k ([] : List (List Nat)))).flatten))
      ∧ r.hex = bytesToHex (bfin.take (min 2 bfin.length))
      ∧ s'.readBuffer = bfin.drop (min 2 bfin.length)
      ∧ bfin.take (min 2 bfin.length) ++ s'.readBuffer = bfin
      ∧ s'.port = bridgeOpen.port ∧ s'.reader = bridgeOpen.reader
      ∧ s'.writer = bridgeOpen.writer) :=
  ⟨rfl, readHex_frame bridgeOpen 2 0 [] rfl⟩

/-! ### Whitespace split lemmas (for `readBytes`) -/

theorem isJsSpace_upper_digitChar :
    ∀ d : Nat, d < 16 → isJsSpace (Char.toUpper (Nat.digitChar d)) = false := by decide

theorem hexPair_no_space (b : Nat) (h : b < 256) : ∀ c ∈ hexPair b, isJsSpace c = false := by
  rw [hexPair_eq b h]
  have hdiv : b / 16 < 16 := Nat.div_lt_of_lt_mul (by omega)
  have hmod : b % 16 < 16 := Nat.mod_lt _ (by omega)
  intro c hc
  simp only [List.mem_cons, List.not_mem_nil, or_false] at hc
  rcases hc with rfl | rfl
  · exact isJsSpace_upper_digitChar _ hdiv
  · exact isJsSpace_upper_digitChar _ hmod

theorem splitWs_run (t rest : List Char) (ht : t ≠ [])
    (hall : ∀ c ∈ t, isJsSpace c = false)
    (hrest : rest = [] ∨ ∃ c cs, rest = c :: cs ∧ isJsSpace c = true) :
    splitWs (t ++ rest) = t :: splitWs rest := by
  obtain ⟨c, t', rfl⟩ := List.exists_cons_of_ne_nil ht
  have hc : isJsSpace c = false := hall c (by simp)
  have ht' : ∀ x ∈ t', (!isJsSpace x) = true :=
    fun x hx => by simp [hall x (by simp [hx])]
  have hrest' : rest = [] ∨ ∃ c cs, rest = c :: cs ∧ (!isJsSpace c) = false := by
    rcases hrest with rfl | ⟨c', cs, rfl, hc'⟩
    · exact Or.inl rfl
    · exact Or.inr ⟨c', cs, rfl, by simp [hc']⟩
  rw [List.cons_append, splitWs]
  simp only [hc, Bool.false_eq_true, if_false]
  rw [takeWhile_append_all _ _ _ ht', dropWhile_append_all _ _ _ ht',
    takeWhile_of_head_false _ _ hrest', dropWhile_of_head_false _ _ hrest']
  simp

theorem splitWs_cons_space (c : Char) (cs : List Char) (h : isJsSpace c = true) :
    splitWs (c :: cs) = splitWs cs := by
  rw [splitWs]
  simp [h]

theorem splitWs_joinSpace (ts : List (List Char))
    (h : ∀ t ∈ ts, t ≠ [] ∧ ∀ c ∈ t, isJsSpace c = false) :
    splitWs (joinSpace ts) = ts := by
  induction ts with
  | nil => rw [joinSpace, splitWs]
  | cons t ts ih =>
    obtain ⟨htne, htc⟩ := h t (by simp)
    cases ts with
    | nil =>
      show splitWs (joinSpace [t]) = [t]
      rw [joinSpace]
      conv_lhs => rw [← List.append_nil t]
      rw [splitWs_run _ _ htne htc (Or.inl rfl), splitWs]
    | cons t2 ts2 =>
      rw [joinSpace]
      rw [splitWs_run _ _ htne htc (Or.inr ⟨' ', _, rfl, by decide⟩),
        splitWs_cons_space _ _ (by decide)]
      rw [ih (fun x hx => h x (by simp [hx]))]

theorem map_hexTokenVal_hexPair (bs : List Nat) (h : ∀ b ∈ bs, b < 256) :
    (bs.map hexPair).map hexTokenVal = bs := by
  induction bs with
  | nil => rfl
  | cons b bs ih =>
    simp only [List.map_cons, hexTokenVal_hexPair b (h b (by simp))]
    rw [ih (fun x hx => h x (by simp [hx]))]

theorem bytesToHex_cons_ne_empty (b : Nat) (bs : List Nat) (hb : b < 256) :
    bytesToHex (b :: bs) ≠ "" := by
  intro h0
  have hd := congrArg String.data h0
  cases bs with
  | nil =>
    exact hexPair_ne_nil b hb (by simpa [bytesToHex, joinSpace] using hd)
  | cons b2 bs2 =>
    rw [bytesToHex, List.map_cons, List.map_cons, joinSpace] at hd
    simp at hd

/-- Decoding the hex rendering of a byte list (the body of `readBytes`)
recovers the bytes. -/
theorem decode_bytesToHex (out : List Nat) (h : ∀ b ∈ out, b < 256) :
    (if bytesToHex out ≠ "" then (splitWs (bytesToHex out).data).map hexTokenVal else [])
      = out := by
  cases out with
  | nil => simp [bytesToHex, joinSpace]
  | cons b out' =>
    have hne := bytesToHex_cons_ne_empty b out' (h b (by simp))
    rw [if_pos hne]
    show (splitWs (joinSpace ((b :: out').map hexPair))).map hexTokenVal = b :: out'
    rw [splitWs_joinSpace]
    · exact map_hexTokenVal_hexPair _ h
    · intro t ht
      obtain ⟨b', hb', rfl⟩ := List.mem_map.mp ht
      exact ⟨hexPair_ne_nil b' (h b' hb'), hexPair_no_space b' (h b' hb')⟩

/-- Claim C9: from any bridge state whose buffered and arriving bytes are
genuine bytes, `readBytes` returns exactly the byte values `readHex`
returns from the same state (the byte-array API is the hex API composed
with hex decoding), along with the same successor state. -/
theorem readBytes_refines_readHex (s : Bridge) (count fuel : Nat)
    (arrivals : List (List Nat))
    (hbuf : ∀ b ∈ s.readBuffer, b < 256)
    (harr : ∀ a ∈ arrivals, ∀ b ∈ a, b < 256) (hport : s.port = true) :
    ∃ r s', readHex s count fuel arrivals = Except.ok (r, s')
      ∧ readBytes s count fuel arrivals
          = Except.ok ((readHexLoop count fuel arrivals s.readBuffer).take count, s')
      ∧ r.hex = bytesToHex ((readHexLoop count fuel arrivals s.readBuffer).take count)
      ∧ r.read = ((readHexLoop count fuel arrivals s.readBuffer).take count).length := by
  have hlt : ∀ b ∈ (readHexLoop count fuel arrivals s.readBuffer).take count, b < 256 := by
    obtain ⟨k, hk⟩ := readHexLoop_decomp count fuel arrivals s.readBuffer
    intro b hb
    have hb' := List.mem_of_mem_take hb
    rw [hk] at hb'
    rcases List.mem_append.mp hb' with h1 | h2
    · exact hbuf b h1
    · obtain ⟨a, ha, hba⟩ := List.mem_flatten.mp h2
      exact harr a (List.mem_of_mem_take ha) b hba
  refine ⟨_, _, readHex_open s count fuel arrivals hport, ?_, rfl, rfl⟩
  rw [readBytes, readHex_open s count fuel arrivals hport]
  show Except.ok ((if bytesToHex ((readHexLoop count fuel arrivals s.readBuffer).take count) ≠ "" then (splitWs (bytesToHex ((readHexLoop count fuel arrivals s.readBuffer).take count)).data).map hexTokenVal else []), Bridge.mk s.port s.reader s.writer ((readHexLoop count fuel arrivals s.readBuffer).drop (min count (readHexLoop count fuel arrivals s.readBuffer).length)) s.dtr s.rts) = _
  rw [decode_bytesToHex _ hlt]

/-- Witness for `readBytes_refines_readHex` at the concrete state
`bridgeOpen`, count 2, an expired deadline and no arrivals. -/
theorem readBytes_refines_readHex_witness :
    (∀ b ∈ bridgeOpen.readBuffer, b < 256)
    ∧ (∀ a ∈ ([] : List (List Nat)), ∀ b ∈ a, b < 256)
    ∧ bridgeOpen.port = true
    ∧ (∃ r s', readHex bridgeOpen 2 0 [] = Except.ok (r, s')
      ∧ readBytes bridgeOpen 2 0 []
          = Except.ok ((readHexLoop 2 0 [] bridgeOpen.readBuffer).take 2, s')
      ∧ r.hex = bytesToHex ((readHexLoop 2 0 [] bridgeOpen.readBuffer).take 2)
      ∧ r.read = ((readHexLoop 2 0 [] bridgeOpen.readBuffer).take 2).length) :=
  ⟨by decide, by decide, rfl,
    readBytes_refines_readHex bridgeOpen 2 0 [] (by decide) (by decide) rfl⟩

/-! ### open / prepareClone claims -/

/-- Counterexample to claim C3 as stated: with a session already open,
`open` does not fail with an `AlreadyOpen` error — it succeeds, returning
the "Already connected." acknowledgment and leaving the state untouched. -/
theorem open_already_connected_succeeds :
    openBridge true (Except.ok ()) (Bridge.mk true true true [] false false) 9600
      = Except.ok ({ connected := true, message := "Already connected." },
          Bridge.mk true true true [] false false) := by
  rfl

/-- Claim C3 (amended): calling `open` while a session is already open
does not open a second session — it returns the "Already connected."
acknowledgment with the bridge state unchanged (no new port is requested),
so at most one session is ever open. -/
theorem open_when_already_open (supported : Bool) (acquire : Except String Unit)
    (s : Bridge) (baud : Nat) (hsup : supported = true) (hport : s.port = true) :
    openBridge supported acquire s baud
      = Except.ok ({ connected := true, message := "Already connected." }, s) := by
  subst hsup
  rw [openBridge.eq_def, hport]
  rfl

/-- Witness for `open_when_already_open` at the concrete open state. -/
theorem open_when_already_open_witness :
    (true = true) ∧ bridgeOpen.port = true
    ∧ openBridge true (Except.error "user cancelled") bridgeOpen 9600
      = Except.ok ({ connected := true, message := "Already connected." }, bridgeOpen) :=
  ⟨rfl, rfl, open_when_already_open true (Except.error "user cancelled") bridgeOpen 9600 rfl rfl⟩

/-- Claim C7: with an open session, `prepareClone` clears the read buffer,
sets the control lines (whenever the adapter supports `setSignals`), and
returns `prepared = true`; with no open session it fails with the
not-connected error. -/
theorem prepareClone_spec (s : Bridge) (signalsOk wantsDtr wantsRts : Bool)
    (settleMs : Nat) :
    (s.port = true → ∃ s', prepareClone s signalsOk wantsDtr wantsRts settleMs
        = Except.ok ({ prepared := true }, s')
      ∧ s'.readBuffer = []
      ∧ (signalsOk = true → s'.dtr = wantsDtr ∧ s'.rts = wantsRts)
      ∧ s'.port = s.port ∧ s'.reader = s.reader ∧ s'.writer = s.writer)
    ∧ (s.port = false → prepareClone s signalsOk wantsDtr wantsRts settleMs
        = Except.error "Port is not connected.") := by
  constructor
  · intro hport
    rw [prepareClone, hport]
    cases signalsOk with
    | false =>
      refine ⟨_, rfl, rfl, ?_, rfl, rfl, rfl⟩
      intro h
      cases h
    | true => exact ⟨_, rfl, rfl, fun _ => ⟨rfl, rfl⟩, rfl, rfl, rfl⟩
  · intro hport
    rw [prepareClone, hport]
    rfl

/-- Witness for `prepareClone_spec` at the concrete open state. -/
theorem prepareClone_spec_witness :
    bridgeOpen.port = true
    ∧ (∃ s', prepareClone bridgeOpen true true false 350
        = Except.ok ({ prepared := true }, s')
      ∧ s'.readBuffer = []
      ∧ (true = true → s'.dtr = true ∧ s'.rts = false)
      ∧ s'.port = bridgeOpen.port ∧ s'.reader = bridgeOpen.reader
      ∧ s'.writer = bridgeOpen.writer) :=
  ⟨rfl, (prepareClone_spec bridgeOpen true true false 350).1 rfl⟩

/-! ## Message bridge id assignment (src/web/js/serial.js lines 300-307,
src/web/py-worker.js lines 26-32)

Pending-call maps (`const pending = new Map()`, `const rpcPending = new
Map()`) are modelled as functions `Nat → Option β`; the stored
`{resolve, reject}` continuation pairs are opaque values of type `β`. -/

/-- `callWorker` id assignment and registration (serial.js lines 300-307):
`const id = ++reqId; pending.set(id, {resolve, reject})`.  Returns the new
counter, the assigned id and the updated pending map. -/
def callWorker {β : Type} (reqId : Nat) (pending : Nat → Option β) (entry : β) :
    Nat × Nat × (Nat → Option β) :=
  let id := reqId + 1
  (id, id, fun j => if j = id then some entry else pending j)

/-- `serialRpc` id assignment and registration (py-worker.js lines 26-32):
`const id = ++rpcId; rpcPending.set(id, {resolve, reject})`. -/
def serialRpc {β : Type} (rpcId : Nat) (pending : Nat → Option β) (entry : β) :
    Nat × Nat × (Nat → Option β) :=
  let id := rpcId + 1
  (id, id, fun j => if j = id then some entry else pending j)

/-- The ids produced by `n` successive `callWorker` calls from counter
state `reqId`. -/
def callWorkerIds (pending : Nat → Option Unit) (reqId : Nat) : Nat → List Nat
  | 0 => []
  | Nat.succ n =>
    let r := callWorker reqId pending ()
    r.2.1 :: callWorkerIds r.2.2 r.1 n

/-- The ids produced by `n` successive `serialRpc` calls from counter
state `rpcId`. -/
def serialRpcIds (pending : Nat → Option Unit) (rpcId : Nat) : Nat → List Nat
  | 0 => []
  | Nat.succ n =>
    let r := serialRpc rpcId pending ()
    r.2.1 :: serialRpcIds r.2.2 r.1 n

theorem callWorkerIds_gt (p : Nat → Option Unit) (c n : Nat) :
    ∀ i ∈ callWorkerIds p c n, c < i := by
  induction n generalizing p c with
  | zero => simp [callWorkerIds]
  | succ n ih =>
    intro i hi
    simp only [callWorkerIds, callWorker, List.mem_cons] at hi
    rcases hi with rfl | hi
    · omega
    · have := ih _ _ i hi
      omega

theorem callWorkerIds_pairwise (p : Nat → Option Unit) (c n : Nat) :
    List.Pairwise (· < ·) (callWorkerIds p c n) := by
  induction n generalizing p c with
  | zero => simp [callWorkerIds]
  | succ n ih =>
    simp only [callWorkerIds, callWorker]
    exact List.Pairwise.cons (fun i hi => callWorkerIds_gt _ _ _ i hi) (ih _ _)

theorem serialRpcIds_gt (p : Nat → Option Unit) (c n : Nat) :
    ∀ i ∈ serialRpcIds p c n, c < i := by
  induction n generalizing p c with
  | zero => simp [serialRpcIds]
  | succ n ih =>
    intro i hi
    simp only [serialRpcIds, serialRpc, List.mem_cons] at hi
    rcases hi with rfl | hi
    · omega
    · have := ih _ _ i hi
      omega

theorem serialRpcIds_pairwise (p : Nat → Option Unit) (c n : Nat) :
    List.Pairwise (· < ·) (serialRpcIds p c n) := by
  induction n generalizing p c with
  | zero => simp [serialRpcIds]
  | succ n ih =>
    simp only [serialRpcIds, serialRpc]
    exact List.Pairwise.cons (fun i hi => serialRpcIds_gt _ _ _ i hi) (ih _ _)

/-- Claim C4: on each bridge direction (forward `callWorker` ids and
reverse `serialRpc` ids), every issued call receives an id strictly
greater than every id previously assigned on that direction (the id lists
are strictly increasing), so ids are unique (no duplicates) and never
reused within a process lifetime. -/
theorem rpc_ids_monotone_unique (p q : Nat → Option Unit) (c d n m : Nat) :
    List.Pairwise (· < ·) (callWorkerIds p c n)
    ∧ (callWorkerIds p c n).Nodup
    ∧ List.Pairwise (· < ·) (serialRpcIds q d m)
    ∧ (serialRpcIds q d m).Nodup :=
  ⟨callWorkerIds_pairwise p c n,
   (callWorkerIds_pairwise p c n).imp (fun h => Nat.ne_of_lt h),
   serialRpcIds_pairwise q d m,
   (serialRpcIds_pairwise q d m).imp (fun h => Nat.ne_of_lt h)⟩

/-! ## Response matching (src/web/js/serial.js lines 276-292,
src/web/py-worker.js lines 222-234) -/

/-- What a response handler did with a message. -/
inductive Settlement (α : Type) where
  | ignored : Settlement α
  | resolved : α → Settlement α
  | rejected : String → Settlement α
deriving Repr, DecidableEq

/-- A result message `{id, ok, data, error}` as read by the listeners. -/
structure ResultMsg (α : Type) where
  id : Nat
  ok : Bool
  data : α
  error : Option String
deriving Repr, DecidableEq

/-- `msg.error || <default>`: an absent or empty message string falls back
to the default text. -/
def errOrDefault (e : Option String) (dflt : String) : String :=
  match e with
  | some s => if s = "" then dflt else s
  | none => dflt

/-- The worker-response branch of the `createWorkerRpcClient` listener
(serial.js lines 276-292): look the id up in `pending`; a miss returns
with nothing settled; a hit deletes the entry and resolves or rejects it
(rejection text `msg.error || "Worker failure"`). -/
def handleWorkerResponse {α β : Type} (pending : Nat → Option β) (msg : ResultMsg α) :
    (Nat → Option β) × Settlement α :=
  match pending msg.id with
  | none => (pending, Settlement.ignored)
  | some _ =>
    (fun j => if j = msg.id then none else pending j,
     if msg.ok then Settlement.resolved msg.data
     else Settlement.rejected (errOrDefault msg.error "Worker failure"))

/-- The `serial-rpc-result` branch of the worker's `onmessage`
(py-worker.js lines 222-234): same shape over `rpcPending`, with default
rejection text `"serial rpc failed"`. -/
def handleSerialRpcResult {α β : Type} (rpcPending : Nat → Option β) (msg : ResultMsg α) :
    (Nat → Option β) × Settlement α :=
  match rpcPending msg.id with
  | none => (rpcPending, Settlement.ignored)
  | some _ =>
    (fun j => if j = msg.id then none else rpcPending j,
     if msg.ok then Settlement.resolved msg.data
     else Settlement.rejected (errOrDefault msg.error "serial rpc failed"))

/-- Claim C5: a response whose id has no pending entry is ignored on both
directions — no call is resolved or rejected and the pending map is
unchanged; and since a matched response deletes its entry before settling,
a second response with the same id is ignored, so each pending call is
settled at most once. -/
theorem handleWorkerResponse_none {α β : Type} (p : Nat → Option β) (m : ResultMsg α)
    (h : p m.id = none) : handleWorkerResponse p m = (p, Settlement.ignored) := by
  rw [handleWorkerResponse, h]

theorem handleWorkerResponse_hit {α β : Type} (p : Nat → Option β) (m : ResultMsg α)
    (e : β) (h : p m.id = some e) :
    handleWorkerResponse p m = (fun j => if j = m.id then none else p j,
      if m.ok then Settlement.resolved m.data
      else Settlement.rejected (errOrDefault m.error "Worker failure")) := by
  rw [handleWorkerResponse, h]

/-- Claim C5: a response whose id has no pending entry is ignored on both
directions — no call is resolved or rejected and the pending map is
unchanged; and since a matched response deletes its entry before settling,
a second response with the same id is ignored, so each pending call is
settled at most once. -/
theorem unmatched_response_ignored {α β : Type} (pending : Nat → Option β)
    (msg : ResultMsg α) (h : pending msg.id = none) :
    handleWorkerResponse pending msg = (pending, Settlement.ignored)
    ∧ handleSerialRpcResult pending msg = (pending, Settlement.ignored)
    ∧ (∀ (p2 : Nat → Option β) (m1 m2 : ResultMsg α),
        m2.id = m1.id →
        (handleWorkerResponse (handleWorkerResponse p2 m1).1 m2).1
            = (handleWorkerResponse p2 m1).1
          ∧ ((handleWorkerResponse p2 m1).1 m1.id = none)
          ∧ ((p2 m1.id).isSome = true →
              (handleWorkerResponse (handleWorkerResponse p2 m1).1 m2).2
                = Settlement.ignored)) := by
  refine ⟨handleWorkerResponse_none pending msg h, ?_, ?_⟩
  · rw [handleSerialRpcResult, h]
  · intro p2 m1 m2 hid
    cases h2 : p2 m1.id with
    | none =>
      rw [handleWorkerResponse_none p2 m1 h2]
      refine ⟨?_, h2, fun hs => by simp at hs⟩
      show (handleWorkerResponse p2 m2).1 = p2
      rw [handleWorkerResponse_none p2 m2 (by rw [hid]; exact h2)]
    | some e =>
      rw [handleWorkerResponse_hit p2 m1 e h2]
      have hdel : (fun j => if j = m1.id then none else p2 j) m2.id
          = (none : Option β) := by
        simp [hid]
      refine ⟨?_, by simp, fun _ => ?_⟩
      · show (handleWorkerResponse (fun j => if j = m1.id then none else p2 j) m2).1
          = (fun j => if j = m1.id then none else p2 j)
        rw [handleWorkerResponse_none _ m2 hdel]
      · show (handleWorkerResponse (fun j => if j = m1.id then none else p2 j) m2).2
          = Settlement.ignored
        rw [handleWorkerResponse_none _ m2 hdel]

/-- Witness for `unmatched_response_ignored`: a pending map holding only
id 1 ignores a response with id 2. -/
theorem unmatched_response_ignored_witness :
    ((fun j => if j = 1 then some 0 else none) : Nat → Option Nat) 2 = none
    ∧ handleWorkerResponse (fun j => if j = 1 then some 0 else none)
        (ResultMsg.mk 2 true 7 (none : Option String))
      = ((fun j => if j = 1 then some 0 else none), Settlement.ignored) :=
  ⟨rfl, (unmatched_response_ignored (fun j => if j = 1 then some 0 else none)
    (ResultMsg.mk 2 true 7 none) rfl).1⟩

/-! ## Error conversion at the context boundary
(src/web/py-worker.js lines 148-251, src/web/js/serial.js lines 189-241
and 253-274) -/

/-- A thrown JS error value: its `.message` property (absent on non-Error
throwables) and its `String(error)` rendering. -/
structure JsError where
  message : Option String
  rendered : String
deriving Repr, DecidableEq

/-- `error?.message || String(error)`: a missing or empty message string
falls back to the string rendering. -/
def errText (e : JsError) : String :=
  match e.message with
  | some m => if m = "" then e.rendered else m
  | none => e.rendered

/-- `new Error(msg)`: message `msg`, rendered as `"Error: " ++ msg`. -/
def jsError (msg : String) : JsError :=
  JsError.mk (some msg) ("Error: " ++ msg)

/-- The side effects `handleCall` can invoke (py-worker.js lines 148-217):
`ensurePyodide` plus one implementation per known method, each of which
may throw.  Payloads and results are opaque. -/
structure WorkerEnv (π δ : Type) where
  ensurePyodide : Except JsError Unit
  listRadios : π → Except JsError δ
  parseCsv : π → Except JsError δ
  normalizeRows : π → Except JsError δ
  serialConnect : π → Except JsError δ
  serialDisconnect : π → Except JsError δ
  serialTxRx : π → Except JsError δ
  downloadSelectedRadio : π → Except JsError δ
  uploadSelectedRadio : π → Except JsError δ

/-- `handleCall` (py-worker.js lines 148-217): serve `listRadios` without
the runtime, otherwise await `ensurePyodide`, dispatch on the method name
and throw `Unknown method` when nothing matches. -/
def handleCall {π δ : Type} (env : WorkerEnv π δ) (method : String) (payload : π) :
    Except JsError δ :=
  if method = "listRadios" then env.listRadios payload
  else
    match env.ensurePyodide with
    | Except.error e => Except.error e
    | Except.ok () =>
      if method = "parseCsv" then env.parseCsv payload
      else if method = "normalizeRows" then env.normalizeRows payload
      else if method = "serialConnect" then env.serialConnect payload
      else if method = "serialDisconnect" then env.serialDisconnect payload
      else if method = "serialTxRx" then env.serialTxRx payload
      else if method = "downloadSelectedRadio" then env.downloadSelectedRadio payload
      else if method = "uploadSelectedRadio" then env.uploadSelectedRadio payload
      else Except.error (jsError ("Unknown method: " ++ method))

/-- An incoming `{id, method, payload}` worker call. -/
structure CallMsg (π : Type) where
  id : Nat
  method : String
  payload : π

/-- An outgoing `{id, ok, data|error}` reply. -/
structure CallReply (δ : Type) where
  id : Nat
  ok : Bool
  data : Option δ
  error : Option String
deriving Repr, DecidableEq

/-- The worker's `self.onmessage` dispatch path (py-worker.js lines
236-251): drop messages with a falsy id or method (0 / empty string),
otherwise run `handleCall` and post `{id, ok:true, data}` or
`{id, ok:false, error: error?.message || String(error)}`. -/
def workerOnMessage {π δ : Type} (env : WorkerEnv π δ) (msg : CallMsg π) :
    Option (CallReply δ) :=
  if msg.id = 0 ∨ msg.method = "" then none
  else
    match handleCall env msg.method msg.payload with
    | Except.ok d => some (CallReply.mk msg.id true (some d) none)
    | Except.error e => some (CallReply.mk msg.id false none (some (errText e)))

/-- The serial operations `createSerialRpcHandler` dispatches to
(serial.js lines 189-241), each of which may throw. -/
structure SerialOps (π δ : Type) where
  openOp : π → Except JsError δ
  closeOp : π → Except JsError δ
  writeHexOp : π → Except JsError δ
  readHexOp : π → Except JsError δ
  writeBytesOp : π → Except JsError δ
  readBytesOp : π → Except JsError δ
  logOp : π → Except JsError δ
  prepareCloneOp : π → Except JsError δ
  resetBuffersOp : π → Except JsError δ

/-- `createSerialRpcHandler`'s dispatch (serial.js lines 189-241): match
the op name, throw `Unknown serial op` when nothing matches. -/
def handleSerialRpc {π δ : Type} (ops : SerialOps π δ) (op : String) (payload : π) :
    Except JsError δ :=
  if op = "open" then ops.openOp payload
  else if op = "close" then ops.closeOp payload
  else if op = "writeHex" then ops.writeHexOp payload
  else if op = "readHex" then ops.readHexOp payload
  else if op = "writeBytes" then ops.writeBytesOp payload
  else if op = "readBytes" then ops.readBytesOp payload
  else if op = "log" then ops.logOp payload
  else if op = "prepareClone" then ops.prepareCloneOp payload
  else if op = "resetBuffers" then ops.resetBuffersOp payload
  else Except.error (jsError ("Unknown serial op: " ++ op))

/-- An incoming `{id, op, payload}` serial RPC request. -/
structure SerialRpcMsg (π : Type) where
  id : Nat
  op : String
  payload : π

/-- The `serial-rpc` branch of the client listener (serial.js lines
253-274): run the handler and always post a `serial-rpc-result`, with
`error: error?.message || String(error)` on a throw. -/
def onSerialRpcMessage {π δ : Type} (ops : SerialOps π δ) (msg : SerialRpcMsg π) :
    CallReply δ :=
  match handleSerialRpc ops msg.op msg.payload with
  | Except.ok d => CallReply.mk msg.id true (some d) none
  | Except.error e => CallReply.mk msg.id false none (some (errText e))

/-- Claim C6: whenever a handler throws — including on an unknown method
or operation name — the bridge replies with an explicit
`{id, ok:false, error}` result whose error field is the textual message
extracted from the thrown value (`error?.message || String(error)`), so no
call is left unresolved and no raw error object crosses the context
boundary. -/
theorem thrown_errors_become_replies {π δ : Type} (env : WorkerEnv π δ)
    (ops : SerialOps π δ) (msg : CallMsg π) (smsg : SerialRpcMsg π) (e e' : JsError) :
    (msg.id ≠ 0 → msg.method ≠ "" →
      handleCall env msg.method msg.payload = Except.error e →
      workerOnMessage env msg = some (CallReply.mk msg.id false none (some (errText e))))
    ∧ (env.ensurePyodide = Except.ok () →
      msg.method ∉ ["listRadios", "parseCsv", "normalizeRows", "serialConnect",
        "serialDisconnect", "serialTxRx", "downloadSelectedRadio", "uploadSelectedRadio"] →
      handleCall env msg.method msg.payload
        = Except.error (jsError ("Unknown method: " ++ msg.method)))
    ∧ (handleSerialRpc ops smsg.op smsg.payload = Except.error e' →
      onSerialRpcMessage ops smsg = CallReply.mk smsg.id false none (some (errText e')))
    ∧ (smsg.op ∉ ["open", "close", "writeHex", "readHex", "writeBytes", "readBytes",
        "log", "prepareClone", "resetBuffers"] →
      handleSerialRpc ops smsg.op smsg.payload
        = Except.error (jsError ("Unknown serial op: " ++ smsg.op))) := by
  refine ⟨?_, ?_, ?_, ?_⟩
  · intro h1 h2 h3
    rw [workerOnMessage, if_neg (by simp [h1, h2]), h3]
  · intro hens hmem
    simp only [List.mem_cons, List.not_mem_nil, or_false, not_or] at hmem
    obtain ⟨n1, n2, n3, n4, n5, n6, n7, n8⟩ := hmem
    rw [handleCall, if_neg n1, hens, if_neg n2, if_neg n3, if_neg n4, if_neg n5,
      if_neg n6, if_neg n7, if_neg n8]
  · intro h3
    rw [onSerialRpcMessage, h3]
  · intro hmem
    simp only [List.mem_cons, List.not_mem_nil, or_false, not_or] at hmem
    obtain ⟨n1, n2, n3, n4, n5, n6, n7, n8, n9⟩ := hmem
    rw [handleSerialRpc, if_neg n1, if_neg n2, if_neg n3, if_neg n4, if_neg n5,
      if_neg n6, if_neg n7, if_neg n8, if_neg n9]

/-- Concrete environment whose every implementation succeeds, for
instantiating the error-reply theorem. -/
def envOk : WorkerEnv Unit Unit :=
  WorkerEnv.mk (Except.ok ()) (fun _ => Except.ok ()) (fun _ => Except.ok ())
    (fun _ => Except.ok ()) (fun _ => Except.ok ()) (fun _ => Except.ok ())
    (fun _ => Except.ok ()) (fun _ => Except.ok ()) (fun _ => Except.ok ())

/-- Concrete serial ops whose every implementation succeeds. -/
def opsOk : SerialOps Unit Unit :=
  SerialOps.mk (fun _ => Except.ok ()) (fun _ => Except.ok ()) (fun _ => Except.ok ())
    (fun _ => Except.ok ()) (fun _ => Except.ok ()) (fun _ => Except.ok ())
    (fun _ => Except.ok ()) (fun _ => Except.ok ()) (fun _ => Except.ok ())

/-- Witness for `thrown_errors_become_replies`: the unknown method
"bogus" with id 1 produces an explicit textual error reply. -/
theorem thrown_errors_become_replies_witness :
    ((1 : Nat) ≠ 0) ∧ ("bogus" ≠ "")
    ∧ handleCall envOk "bogus" () = Except.error (jsError "Unknown method: bogus")
    ∧ workerOnMessage envOk (CallMsg.mk 1 "bogus" ())
      = some (CallReply.mk 1 false none (some (errText (jsError "Unknown method: bogus")))) := by
  have hunk : handleCall envOk "bogus" () = Except.error (jsError "Unknown method: bogus") :=
    (thrown_errors_become_replies envOk opsOk (CallMsg.mk 1 "bogus" ())
      (SerialRpcMsg.mk 1 "x" ()) (jsError "Unknown method: bogus")
      (jsError "x")).2.1 rfl (by decide)
  exact ⟨by decide, by decide, hunk,
    (thrown_errors_become_replies envOk opsOk (CallMsg.mk 1 "bogus" ())
      (SerialRpcMsg.mk 1 "x" ()) (jsError "Unknown method: bogus")
      (jsError "x")).1 (by decide) (by decide) hunk⟩

/-! ## Image cache upload guard (spec §4.4)

The clone protocol engine and image cache are implemented in
`web/python/runtime_bridge.py`, which is not among the provided source
files — only its callers (`py-worker.js`, `app.js`, the smoke scripts)
are.  The upload guard is therefore modelled from the spec. -/

/-- Error taxonomy entries relevant to `upload` (spec §7). -/
inductive CloneError where
  | NoCachedImage : CloneError
  | BlockWriteFailed : Nat → CloneError
deriving Repr, DecidableEq

/-- An edited channel row (spec §3; only identity matters here). -/
structure MemoryRow where
  location : Nat
  name : String
deriving Repr, DecidableEq

/-- Modelled from the spec: `upload(deviceKey, rows)` of §4.4 — the
missing `runtime_bridge.py` implementation.  "requires an existing cache
entry, else fails `NoCachedImage` with zero transport writes performed;
otherwise decodes the cached image ..., runs the Writing sequence over
that new image, and replaces the cache entry only after the Writing
sequence completes without a fatal block error."  The decode/apply/
re-encode/Writing pipeline is abstracted as `writeSeq`, returning the
number of transport write operations it issued and either the new image
or a fatal block error. -/
def upload (writeSeq : List Nat → List MemoryRow → Nat × Except CloneError (List Nat))
    (cache : String → Option (List Nat)) (deviceKey : String) (rows : List MemoryRow) :
    (String → Option (List Nat)) × Nat × Except CloneError Unit :=
  match cache deviceKey with
  | none => (cache, 0, Except.error CloneError.NoCachedImage)
  | some img =>
    let r := writeSeq img rows
    match r.2 with
    | Except.ok newImg =>
      (fun k => if k = deviceKey then some newImg else cache k, r.1, Except.ok ())
    | Except.error e => (cache, r.1, Except.error e)

/-- Claim C2: for every deviceKey with no cache entry (no prior successful
download), `upload` fails with `NoCachedImage`, performs zero transport
write operations, and leaves the cache unchanged. -/
theorem upload_no_cache_fails
    (writeSeq : List Nat → List MemoryRow → Nat × Except CloneError (List Nat))
    (cache : String → Option (List Nat)) (deviceKey : String) (rows : List MemoryRow)
    (h : cache deviceKey = none) :
    upload writeSeq cache deviceKey rows
      = (cache, 0, Except.error CloneError.NoCachedImage) := by
  rw [upload, h]

/-- Witness for `upload_no_cache_fails`: the empty cache and the exemplar
device key. -/
theorem upload_no_cache_fails_witness :
    ((fun _ => none) : String → Option (List Nat)) "h777:H777Radio" = none
    ∧ upload (fun img _ => (img.length, Except.ok img)) (fun _ => none) "h777:H777Radio" []
      = ((fun _ => none), 0, Except.error CloneError.NoCachedImage) :=
  ⟨rfl, upload_no_cache_fails (fun img _ => (img.length, Except.ok img))
    (fun _ => none) "h777:H777Radio" [] rfl⟩

end WebChirp
